import Mathlib

/-!
Shallow embedding of `scrape_pitchvc.py` (the scraping core of the
capFactory repository) and proofs about it.

The embedding keeps the Python structure:
* listing-page discovery (`get_company_links`) is a loop over fetch
  results that stops on a non-200 status or on a page with no matching
  anchors, and finally converts the accumulated list through
  `list(set(...))` (modelled as an arbitrary function satisfying
  `SetToList`, since CPython string-hash order is unspecified);
* detail-page extraction (`extractRecord`) works on a document model in
  which each field of `DetailDoc` is the result of the corresponding
  BeautifulSoup query (`find` / `find_all`, document order);
* Python string operations (`strip`, `replace`, `in`, `startswith`) are
  modelled character-list-wise (`pyStrip`, `pyReplace`, `strContains`,
  `pyStartsWith`).
-/

/-- Python `pat in s` (substring test), on character lists. -/
def infixAux (pat : List Char) : List Char → Bool
  | [] => pat.isEmpty
  | c :: cs => pat.isPrefixOf (c :: cs) || infixAux pat cs

/-- Python `pat in s` for strings. -/
def strContains (s pat : String) : Bool := infixAux pat.data s.data

/-- Python `s.startswith(pre)`. -/
def pyStartsWith (s pre : String) : Bool := pre.data.isPrefixOf s.data

/-- Python `s.strip()` (default whitespace strip on both ends). -/
def pyStrip (s : String) : String :=
  String.mk
    (((s.data.dropWhile Char.isWhitespace).reverse.dropWhile Char.isWhitespace).reverse)

/-- Python `s.replace(pat, rep)` worker: leftmost, non-overlapping, all
occurrences; fuel = length of the subject, which bounds the recursion. -/
def pyReplaceAux (pat rep : List Char) : Nat → List Char → List Char
  | _, [] => []
  | 0, cs => cs
  | fuel + 1, c :: cs =>
    if !pat.isEmpty && pat.isPrefixOf (c :: cs) then
      rep ++ pyReplaceAux pat rep fuel ((c :: cs).drop pat.length)
    else
      c :: pyReplaceAux pat rep fuel cs

/-- Python `s.replace(pat, rep)`. -/
def pyReplace (s pat rep : String) : String :=
  String.mk (pyReplaceAux pat.data rep.data s.data.length s.data)

/-- An `<a>` element as the listing-page scan sees it: its `href`
attribute (absent = `none`) and its raw HTML serialization `str(link)`
(the logo test is a substring test on that). -/
structure Anchor where
  href : Option String
  raw : String
deriving DecidableEq

/-- The `find_all('a', href=lambda x: x and x.startswith('/companies/'))`
filter. An empty href is falsy in Python and also fails `startswith`,
so matching on `some h` with `pyStartsWith` is exact. -/
def hrefMatches (a : Anchor) : Bool :=
  match a.href with
  | some h => pyStartsWith h "/companies/"
  | none => false

/-- `new_links`: hrefs of anchors passing the href filter whose raw HTML
contains `company-logo` (lines 20-21 of the source). The `getD ""` never
fires: the filter guarantees the href exists. -/
def pageLinks (anchors : List Anchor) : List String :=
  ((anchors.filter hrefMatches).filter (fun a => strContains a.raw "company-logo")).map
    (fun a => a.href.getD "")

/-- Outcome of one `requests.get`: a 200 body, a non-200 status, or a
raised transport exception (`requests` raises on connection errors). -/
inductive FetchResult (α : Type) where
  | ok (body : α)
  | badStatus
  | netError
deriving DecidableEq

/-- The `while True` loop of `get_company_links`, over the stream of
listing pages (page 1 first).  The finite input list describes the pages
the server serves; past its end the server answers with a non-200 status
(both give `break`).  A non-200 status breaks the loop, a page with no
matching links breaks the loop, and a transport exception propagates
(`Except.error`): there is no `try` in `get_company_links`. -/
def discoverLoop : List (FetchResult (List Anchor)) → List String → Except Unit (List String)
  | [], acc => Except.ok acc
  | FetchResult.badStatus :: _, acc => Except.ok acc
  | FetchResult.netError :: _, _ => Except.error ()
  | FetchResult.ok pg :: rest, acc =>
    if pageLinks pg = [] then Except.ok acc
    else discoverLoop rest (acc ++ pageLinks pg)

/-- `list(set(company_links))`: some duplicate-free reordering of the
accumulated links.  CPython string hashing is seed-randomized, so the
only contract is `SetToList`. -/
def SetToList (f : List String → List String) : Prop :=
  ∀ xs : List String, (f xs).Nodup ∧ ∀ a, a ∈ f xs ↔ a ∈ xs

/-- `get_company_links()` (lines 8-35): run the pagination loop from an
empty accumulator, then convert through `list(set(...))`. -/
def get_company_links (pages : List (FetchResult (List Anchor)))
    (setToList : List String → List String) : Except Unit (List String) :=
  (discoverLoop pages []).map setToList

/-- Number of listing pages the loop requests before stopping (each
iteration performs exactly one `requests.get`).  On the empty tail the
next request comes back non-200, which still counts as one fetch. -/
def pagesFetched : List (FetchResult (List Anchor)) → Nat
  | [] => 1
  | FetchResult.badStatus :: _ => 1
  | FetchResult.netError :: _ => 1
  | FetchResult.ok pg :: rest => if pageLinks pg = [] then 1 else 1 + pagesFetched rest

/-- A node in `name_div.contents`: either a navigable string (which has
`.strip()`) or a nested tag (whose `.strip()` raises `AttributeError`). -/
inductive NodeContent where
  | str (s : String)
  | tag
deriving DecidableEq

/-- The compound name/role block of a team card
(`div.flex-grow.text-base.py-2.px-3`): the first node of `.contents`
(`none` = empty contents list, so `contents[0]` raises `IndexError`) and
the raw text of the styled role sub-line
(`find('div', class_='text-sm text-gray-400')`; `none` = not found, so
`.text` on `None` raises `AttributeError`). -/
structure TeamNameDiv where
  contentsHead : Option NodeContent
  roleDiv : Option String
deriving DecidableEq

/-- One team card (`div.border.rounded-lg.shadow-sm.bg-gray-50`). -/
structure MemberCard where
  nameDiv : Option TeamNameDiv
deriving DecidableEq

/-- One milestone card (`div.border.rounded-lg.p-6`): raw texts of the
date marker (`div.float-right`), the title
(`h2.font-semibold.text-base.mb-4`) and the description
(`div.text-gray-500.text.text-sm`), each `none` when `find` misses. -/
structure MilestoneCard where
  dateDiv : Option String
  titleElem : Option String
  descrDiv : Option String
deriving DecidableEq

/-- One narrative block (`div.text`): its `get_text(strip=True)` value
and the text of the nearest preceding `h2.section-headline`
(`find_previous`), if any. -/
structure TextSection where
  stripped : String
  prevHeadline : Option String
deriving DecidableEq

/-- The social/meta container (`div.bg-gray-200/30`): the canonical site
link (`a.social-link`; outer `Option` = element found, inner `Option` =
its `href` attribute, defaulted to `""` by `.get('href','')`), the raw
text of the first city-filter anchor
(`find('a', href=lambda x: x and 'filter' in x and 'cities' in x)`), and
the raw texts of the `span.hidden.md:inline` date badges in document
order. -/
structure SocialSection where
  socialLink : Option (Option String)
  locationElem : Option String
  dateSpans : List String
deriving DecidableEq

/-- One parsed detail page, as the BeautifulSoup queries of
`scrape_company_data` see it: each field holds the result of the
corresponding `find` / `find_all` (document order for the lists). -/
structure DetailDoc where
  nameElem : Option String
  taglineElem : Option String
  socialSection : Option SocialSection
  textSections : List TextSection
  tagElements : List String
  teamGrid : Option (List MemberCard)
  milestoneCards : List MilestoneCard
deriving DecidableEq

/-- A `{name, role}` team entry. -/
structure TeamMember where
  name : String
  role : String
deriving DecidableEq

/-- A `{date, title, description}` milestone entry. -/
structure Milestone where
  date : String
  title : String
  description : String
deriving DecidableEq

/-- The record dictionary initialized at lines 47-59 of the source:
exactly its eleven keys, in the same roles. -/
structure CompanyData where
  company_name : String
  tagline : String
  website : String
  location : String
  description : String
  tags : List String
  team : List TeamMember
  problem_statement : String
  milestones : List Milestone
  founded_date : String
  last_updated : String
deriving DecidableEq

/-- One pass of the team loop body (lines 111-123).  `none` means the
card contributes nothing: either `name_div` was not found (no append,
no exception) or an exception (`IndexError` on empty `contents`,
`AttributeError` on a tag node's `.strip()` or on a missing role
sub-line's `.text`) was caught by the per-card `try`. -/
def extractMember (m : MemberCard) : Option TeamMember :=
  match m.nameDiv with
  | none => none
  | some nd =>
    match nd.contentsHead with
    | none => none
    | some NodeContent.tag => none
    | some (NodeContent.str s) =>
      match nd.roleDiv with
      | none => none
      | some r => some { name := pyStrip s, role := pyStrip r }

/-- One pass of the milestone loop body (lines 127-141): an entry is
appended iff both the date marker and the title were found; the
description falls back to `''` when its element is missing. -/
def extractMilestone (m : MilestoneCard) : Option Milestone :=
  match m.dateDiv, m.titleElem with
  | some d, some t =>
    some { date := pyStrip d, title := pyStrip t,
           description := match m.descrDiv with
             | some dd => pyStrip dd
             | none => "" }
  | _, _ => none

/-- The `if section.find_previous('h2', class_='section-headline') and
'Problem statement' in ...` test of line 100. -/
def isProblemSection (ts : TextSection) : Bool :=
  match ts.prevHeadline with
  | some h => strContains h "Problem statement"
  | none => false

/-- The website/location/dates extraction from the social section
(lines 75-92), returning `(website, location, founded_date,
last_updated)`.  The date loop overwrites on every match, so the last
matching span wins per label. -/
def socialFields (ss : SocialSection) : String × String × String × String :=
  (match ss.socialLink with
    | some h => h.getD ""
    | none => "",
   match ss.locationElem with
    | some t => pyStrip t
    | none => "",
   (ss.dateSpans.foldl (fun fu d =>
      if strContains d "Founded" then (pyReplace d "Founded " "", fu.2)
      else if strContains d "Profile updated" then (fu.1, pyReplace d "Profile updated " "")
      else fu) ("", "")))

/-- Description / problem-statement extraction (lines 94-101):
`text_sections[0]` becomes the description, and the loop overwrites
`problem_statement` with every matching block, so the last match in
document order wins. -/
def textFields (sections : List TextSection) : String × String :=
  match sections with
  | [] => ("", "")
  | t :: _ =>
    (t.stripped,
     sections.foldl (fun acc ts => if isProblemSection ts then ts.stripped else acc) "")

/-- The body of `scrape_company_data` after parsing (lines 44-144): the
only `None` exit is the missing `h1.text-3xl`; every other section
degrades to the line 47-59 defaults.  (`if tag_elements:` and
`if text_sections:` guard assignments that are no-ops on empty lists,
so they are folded into the list operations.) -/
def extractRecord (doc : DetailDoc) : Option CompanyData :=
  match doc.nameElem with
  | none => none
  | some nm =>
    some
      { company_name := pyStrip nm,
        tagline := match doc.taglineElem with
          | some t => pyStrip t
          | none => "",
        website := (match doc.socialSection with
          | some ss => socialFields ss
          | none => ("", "", "", "")).1,
        location := (match doc.socialSection with
          | some ss => socialFields ss
          | none => ("", "", "", "")).2.1,
        description := (textFields doc.textSections).1,
        tags := (doc.tagElements.filter (fun t => !(t == ""))).map pyStrip,
        team := match doc.teamGrid with
          | some cards => cards.filterMap extractMember
          | none => [],
        problem_statement := (textFields doc.textSections).2,
        milestones := doc.milestoneCards.filterMap extractMilestone,
        founded_date := (match doc.socialSection with
          | some ss => socialFields ss
          | none => ("", "", "", "")).2.2.1,
        last_updated := (match doc.socialSection with
          | some ss => socialFields ss
          | none => ("", "", "", "")).2.2.2 }

/-- `scrape_company_data` (lines 37-148) seen from its fetch outcome: a
non-200 status returns `None` (line 42), a transport exception is caught
by the function-wide `try` and returns `None` (lines 146-148), a 200
body goes through extraction. -/
def scrape_company_data (fr : FetchResult DetailDoc) : Option CompanyData :=
  match fr with
  | FetchResult.ok doc => extractRecord doc
  | FetchResult.badStatus => none
  | FetchResult.netError => none

/-- The `__main__` detail loop (lines 157-163): iterate the link list in
order, scrape each, keep non-`None` results (the record dict is always
non-empty, hence truthy, so `if company_data:` keeps exactly the
non-`None` ones). -/
def runOrchestrator (links : List String) (fetch : String → FetchResult DetailDoc) :
    List CompanyData :=
  links.filterMap (fun l => scrape_company_data (fetch l))

/-!
## Output artifact

Persistence is `json.dump(all_data, f, ensure_ascii=False, indent=2)`
(lines 168-169): the serializer itself is the Python standard library,
not repository code.  Modelled from the spec: one document holding an
ordered array of records, human-readable two-space indentation, UTF-8,
non-ASCII characters preserved literally (`ensure_ascii=False`), string
escapes only for the two JSON metacharacters and control characters.
-/

/-- The JSON value fragment `json.dump` emits here: strings, arrays and
(insertion-ordered) objects; the records contain nothing else. -/
inductive JVal where
  | jstr (s : String)
  | jarr (elems : List JVal)
  | jobj (fields : List (String × JVal))

/-- A team entry as a JSON object, keys in dict insertion order. -/
def encodeMemberJ (m : TeamMember) : JVal :=
  JVal.jobj [("name", JVal.jstr m.name), ("role", JVal.jstr m.role)]

/-- A milestone entry as a JSON object, keys in dict insertion order. -/
def encodeMilestoneJ (m : Milestone) : JVal :=
  JVal.jobj
    [("date", JVal.jstr m.date), ("title", JVal.jstr m.title),
     ("description", JVal.jstr m.description)]

/-- A company record as a JSON object, keys in the insertion order of
lines 47-59. -/
def encodeCompanyJ (r : CompanyData) : JVal :=
  JVal.jobj
    [("company_name", JVal.jstr r.company_name),
     ("tagline", JVal.jstr r.tagline),
     ("website", JVal.jstr r.website),
     ("location", JVal.jstr r.location),
     ("description", JVal.jstr r.description),
     ("tags", JVal.jarr (r.tags.map JVal.jstr)),
     ("team", JVal.jarr (r.team.map encodeMemberJ)),
     ("problem_statement", JVal.jstr r.problem_statement),
     ("milestones", JVal.jarr (r.milestones.map encodeMilestoneJ)),
     ("founded_date", JVal.jstr r.founded_date),
     ("last_updated", JVal.jstr r.last_updated)]

/-- The whole artifact: the ordered array of records. -/
def encodeRun (rs : List CompanyData) : JVal := JVal.jarr (rs.map encodeCompanyJ)

/-- Read a team entry back from its JSON object. -/
def decodeMemberJ : JVal → Option TeamMember
  | JVal.jobj [("name", JVal.jstr n), ("role", JVal.jstr r)] =>
    some { name := n, role := r }
  | _ => none

/-- Read a milestone entry back from its JSON object. -/
def decodeMilestoneJ : JVal → Option Milestone
  | JVal.jobj
      [("date", JVal.jstr d), ("title", JVal.jstr t),
       ("description", JVal.jstr ds)] =>
    some { date := d, title := t, description := ds }
  | _ => none

/-- Read a string array back. -/
def decodeStringsJ : List JVal → Option (List String)
  | [] => some []
  | JVal.jstr s :: rest => (decodeStringsJ rest).map (fun l => s :: l)
  | _ => none

/-- Read a team array back. -/
def decodeMembersJ : List JVal → Option (List TeamMember)
  | [] => some []
  | v :: rest =>
    match decodeMemberJ v, decodeMembersJ rest with
    | some m, some l => some (m :: l)
    | _, _ => none

/-- Read a milestone array back. -/
def decodeMilestonesJ : List JVal → Option (List Milestone)
  | [] => some []
  | v :: rest =>
    match decodeMilestoneJ v, decodeMilestonesJ rest with
    | some m, some l => some (m :: l)
    | _, _ => none

/-- Read a company record back from its JSON object. -/
def decodeCompanyJ : JVal → Option CompanyData
  | JVal.jobj
      [("company_name", JVal.jstr cn), ("tagline", JVal.jstr tg),
       ("website", JVal.jstr ws), ("location", JVal.jstr loc),
       ("description", JVal.jstr ds), ("tags", JVal.jarr tgs),
       ("team", JVal.jarr tm), ("problem_statement", JVal.jstr ps),
       ("milestones", JVal.jarr ms), ("founded_date", JVal.jstr fd),
       ("last_updated", JVal.jstr lu)] =>
    match decodeStringsJ tgs, decodeMembersJ tm, decodeMilestonesJ ms with
    | some tags, some team, some mss =>
      some
        { company_name := cn, tagline := tg, website := ws, location := loc,
          description := ds, tags := tags, team := team,
          problem_statement := ps, milestones := mss, founded_date := fd,
          last_updated := lu }
    | _, _, _ => none
  | _ => none

/-- Read the record array back from the artifact. -/
def decodeCompaniesJ : List JVal → Option (List CompanyData)
  | [] => some []
  | v :: rest =>
    match decodeCompanyJ v, decodeCompaniesJ rest with
    | some r, some l => some (r :: l)
    | _, _ => none

/-- Read the whole artifact back. -/
def decodeRun : JVal → Option (List CompanyData)
  | JVal.jarr items => decodeCompaniesJ items
  | _ => none

/-- Lower-case hexadecimal digit for `n < 16`. -/
def toHexChar (n : Nat) : Char :=
  if n < 10 then Char.ofNat (48 + n) else Char.ofNat (87 + n)

/-- One character of string content as `json.dump(ensure_ascii=False)`
writes it: `"` and `\` are escaped, the usual control shortcuts are
used, remaining control characters become `\u00xx`, and every other
character - all non-ASCII included - is written literally. -/
def escChar (c : Char) : List Char :=
  if c = '"' then ['\\', '"']
  else if c = '\\' then ['\\', '\\']
  else if c = '\n' then ['\\', 'n']
  else if c = '\t' then ['\\', 't']
  else if c = '\r' then ['\\', 'r']
  else if c = Char.ofNat 8 then ['\\', 'b']
  else if c = Char.ofNat 12 then ['\\', 'f']
  else if c.toNat < 32 then
    ['\\', 'u', '0', '0', toHexChar (c.toNat / 16), toHexChar (c.toNat % 16)]
  else [c]

/-- JSON-escaped content of a string. -/
def escapeL (s : String) : List Char := (s.data.map escChar).flatten

/-- A rendered JSON string literal. -/
def renderStrL (s : String) : List Char := '"' :: (escapeL s ++ ['"'])

/-- `indent=2`: the indentation prefix at nesting depth `d`. -/
def indentL (d : Nat) : List Char := List.replicate (2 * d) ' '

mutual

/-- Render a value at nesting depth `d`, as `json.dump(..., indent=2)`
lays it out. -/
def renderJL : Nat → JVal → List Char
  | _, JVal.jstr s => renderStrL s
  | _, JVal.jarr [] => ['[', ']']
  | d, JVal.jarr (e :: es) =>
    '[' :: '\n' ::
      (indentL (d + 1) ++ renderJL (d + 1) e ++ renderMoreElemsL (d + 1) es ++
        '\n' :: (indentL d ++ [']']))
  | _, JVal.jobj [] => ['\x7b', '\x7d']
  | d, JVal.jobj ((k, v) :: fs) =>
    '\x7b' :: '\n' ::
      (indentL (d + 1) ++ renderStrL k ++ ':' :: ' ' :: renderJL (d + 1) v ++
        renderMoreFieldsL (d + 1) fs ++ '\n' :: (indentL d ++ ['\x7d']))

/-- Second and later array elements, each preceded by `,\n` + indent. -/
def renderMoreElemsL : Nat → List JVal → List Char
  | _, [] => []
  | d, e :: es => ',' :: '\n' :: (indentL d ++ renderJL d e ++ renderMoreElemsL d es)

/-- Second and later object members, each preceded by `,\n` + indent. -/
def renderMoreFieldsL : Nat → List (String × JVal) → List Char
  | _, [] => []
  | d, (k, v) :: fs =>
    ',' :: '\n' ::
      (indentL d ++ renderStrL k ++ ':' :: ' ' :: renderJL d v ++ renderMoreFieldsL d fs)

end

/-- The text of the persisted artifact for a run's record list. -/
def renderRun (rs : List CompanyData) : String :=
  String.mk (renderJL 0 (encodeRun rs))

/-- JSON insignificant whitespace. -/
def isWsChar (c : Char) : Bool :=
  c == ' ' || (c == '\n' || (c == '\t' || c == '\r'))

/-- Skip insignificant whitespace. -/
def skipWs : List Char → List Char
  | c :: cs => if isWsChar c then skipWs cs else c :: cs
  | [] => []

/-- Value of one lower-case hexadecimal digit. -/
def hexVal (c : Char) : Option Nat :=
  if 48 ≤ c.toNat ∧ c.toNat ≤ 57 then some (c.toNat - 48)
  else if 97 ≤ c.toNat ∧ c.toNat ≤ 102 then some (c.toNat - 87)
  else none

/-- Value of a four-digit hexadecimal escape body. -/
def hexQuad (a b c d : Char) : Option Nat :=
  match hexVal a, hexVal b, hexVal c, hexVal d with
  | some x, some y, some z, some w => some (((x * 16 + y) * 16 + z) * 16 + w)
  | _, _, _, _ => none

/-- Inverse of the short escapes: the three self-representing
characters come back unchanged, the five control shortcuts map to their
control characters, anything else is invalid. -/
def unescChar (e : Char) : Option Char :=
  if e = '"' ∨ e = '\\' ∨ e = '/' then some e
  else if e = 'n' then some '\n'
  else if e = 't' then some '\t'
  else if e = 'r' then some '\r'
  else if e = 'b' then some (Char.ofNat 8)
  else if e = 'f' then some (Char.ofNat 12)
  else none

/-- Parse string content after the opening quote, undoing the escapes;
structural on the input. -/
def parseStrAux (acc : List Char) : List Char → Option (String × List Char)
  | '"' :: rest => some (String.mk acc.reverse, rest)
  | '\\' :: 'u' :: a :: b :: c :: d :: rest =>
    match hexQuad a b c d with
    | some n => parseStrAux (Char.ofNat n :: acc) rest
    | none => none
  | '\\' :: e :: rest =>
    match unescChar e with
    | some ch => parseStrAux (ch :: acc) rest
    | none => none
  | c :: rest => parseStrAux (c :: acc) rest
  | [] => none

mutual

/-- Parse one JSON value (fuel-structural; whitespace-tolerant). -/
def parseValF : Nat → List Char → Option (JVal × List Char)
  | 0, _ => none
  | fuel + 1, cs =>
    match skipWs cs with
    | '"' :: r =>
      match parseStrAux [] r with
      | some (s, r2) => some (JVal.jstr s, r2)
      | none => none
    | '[' :: r =>
      match skipWs r with
      | [] => none
      | c :: r2 =>
        if c = ']' then some (JVal.jarr [], r2)
        else
          match parseElemsF fuel (c :: r2) with
          | some (es, r3) => some (JVal.jarr es, r3)
          | none => none
    | '\x7b' :: r =>
      match skipWs r with
      | [] => none
      | c :: r2 =>
        if c = '\x7d' then some (JVal.jobj [], r2)
        else
          match parseFieldsF fuel (c :: r2) with
          | some (fs, r3) => some (JVal.jobj fs, r3)
          | none => none
    | _ => none

/-- Parse one-or-more comma-separated array elements up to `]`. -/
def parseElemsF : Nat → List Char → Option (List JVal × List Char)
  | 0, _ => none
  | fuel + 1, cs =>
    match parseValF fuel cs with
    | none => none
    | some (v, r) =>
      match skipWs r with
      | [] => none
      | c :: r2 =>
        if c = ',' then
          match parseElemsF fuel r2 with
          | some (vs, r3) => some (v :: vs, r3)
          | none => none
        else if c = ']' then some ([v], r2)
        else none

/-- Parse one-or-more comma-separated object members up to the closing
brace. -/
def parseFieldsF : Nat → List Char → Option (List (String × JVal) × List Char)
  | 0, _ => none
  | fuel + 1, cs =>
    match skipWs cs with
    | '"' :: r =>
      match parseStrAux [] r with
      | none => none
      | some (k, r1) =>
        match skipWs r1 with
        | [] => none
        | c :: r2 =>
          if c = ':' then
            match parseValF fuel (skipWs r2) with
            | none => none
            | some (v, r3) =>
              match skipWs r3 with
              | [] => none
              | c2 :: r4 =>
                if c2 = ',' then
                  match parseFieldsF fuel r4 with
                  | some (fs, r5) => some ((k, v) :: fs, r5)
                  | none => none
                else if c2 = '\x7d' then some ([(k, v)], r4)
                else none
          else none
    | _ => none

end

/-- Parse a complete JSON document (fuel = input length + 1 suffices for
anything the renderer emits, as proved below). -/
def parseTop (s : String) : Option JVal :=
  match parseValF (s.data.length + 1) s.data with
  | some (v, rest) => if (skipWs rest).isEmpty then some v else none
  | none => none

mutual

/-- Fuel needed by `parseValF` on a rendered value. -/
def wVal : JVal → Nat
  | JVal.jstr _ => 1
  | JVal.jarr es => 1 + wElems es
  | JVal.jobj fs => 1 + wFields fs

/-- Fuel needed by `parseElemsF` on rendered elements. -/
def wElems : List JVal → Nat
  | [] => 0
  | e :: es => 1 + max (wVal e) (wElems es)

/-- Fuel needed by `parseFieldsF` on rendered members. -/
def wFields : List (String × JVal) → Nat
  | [] => 0
  | (_, v) :: fs => 1 + max (wVal v) (wFields fs)

end

/-- Reading the artifact back: parse the text, then decode the value. -/
def reparseRun (s : String) : Option (List CompanyData) :=
  match parseTop s with
  | some v => decodeRun v
  | none => none

/-!
## Concrete fixtures

Small inputs used by the counterexamples and the witnesses.
-/

/-- A company-card anchor to `/companies/a` (its serialization carries
the `company-logo` marker). -/
def anchorA : Anchor :=
  { href := some "/companies/a", raw := "<a href=/companies/a><img class=company-logo></a>" }

/-- A company-card anchor to `/companies/b`. -/
def anchorB : Anchor :=
  { href := some "/companies/b", raw := "<a href=/companies/b><img class=company-logo></a>" }

/-- Listing run for C1: page 1 and page 2 both serve exactly the link
`/companies/a` (so page 2 yields zero links that are new), page 3 is
empty. -/
def pagesC1 : List (FetchResult (List Anchor)) :=
  [FetchResult.ok [anchorA], FetchResult.ok [anchorA], FetchResult.ok []]

/-- Listing run for C3: page 1 serves `/companies/a` then
`/companies/b`, page 2 is empty. -/
def pagesC3 : List (FetchResult (List Anchor)) :=
  [FetchResult.ok [anchorA, anchorB], FetchResult.ok []]

/-- Listing run for C4: page 1 succeeds with one link, the fetch of
page 2 raises a transport exception. -/
def pagesC4 : List (FetchResult (List Anchor)) :=
  [FetchResult.ok [anchorA], FetchResult.netError]

/-- A detail page with every optional section absent (and no heading). -/
def emptyDoc : DetailDoc :=
  { nameElem := none, taglineElem := none, socialSection := none,
    textSections := [], tagElements := [], teamGrid := none,
    milestoneCards := [] }

/-- A detail page whose `h1.text-3xl` exists but holds only whitespace:
its stripped text is the empty string. -/
def docBlankName : DetailDoc := { emptyDoc with nameElem := some " " }

/-- A valid translation of `list(set(...))`: first occurrences kept. -/
def dedupST (xs : List String) : List String := xs.dedup

/-- Another valid translation of `list(set(...))`: first occurrences
kept, then reversed.  Either order can come out of a CPython set, whose
string hashing is seed-randomized. -/
def revDedupST (xs : List String) : List String := xs.dedup.reverse

/-- A detail-page server for C3: every link resolves to a page whose
heading text is the link itself. -/
def fetchByName : String → FetchResult DetailDoc :=
  fun l => FetchResult.ok { emptyDoc with nameElem := some l }

/-- A malformed team card: the name/role block exists but its role
sub-line is missing, so `.text` on `None` raises inside the per-card
`try`. -/
def badCard : MemberCard :=
  { nameDiv := some { contentsHead := some (NodeContent.str "Eve"), roleDiv := none } }

/-- A well-formed team card for Ada. -/
def adaCard : MemberCard :=
  { nameDiv := some { contentsHead := some (NodeContent.str "Ada "), roleDiv := some " CEO " } }

/-- A well-formed team card for Bob. -/
def bobCard : MemberCard :=
  { nameDiv := some { contentsHead := some (NodeContent.str "Bob"), roleDiv := some "CTO" } }

/-- A malformed milestone card: date marker present, title missing. -/
def badMilestoneCard : MilestoneCard :=
  { dateDiv := some "Jan 2024", titleElem := none, descrDiv := some "dropped" }

/-- A well-formed milestone card without a description element. -/
def launchCard : MilestoneCard :=
  { dateDiv := some "Feb 2024", titleElem := some "Launch", descrDiv := none }

/-- A well-formed milestone card with all three elements. -/
def seedCard : MilestoneCard :=
  { dateDiv := some "Mar 2024", titleElem := some "Seed", descrDiv := some " Raised. " }

/-- A fully populated detail page used by the witnesses. -/
def richDoc : DetailDoc :=
  { nameElem := some " Acme Co. ",
    taglineElem := some " Ship faster ",
    socialSection := some
      { socialLink := some (some "https://acme.example"),
        locationElem := some " Berlin ",
        dateSpans := ["Founded 2019", "Profile updated Jan 2025"] },
    textSections :=
      [{ stripped := "First block.", prevHeadline := none },
       { stripped := "Old problem.", prevHeadline := some "Problem statement" },
       { stripped := "New problem.", prevHeadline := some "The Problem statement" },
       { stripped := "Unrelated.", prevHeadline := some "Team" }],
    tagElements := [" ai ", "", "saas", " ai "],
    teamGrid := some [adaCard, badCard, bobCard],
    milestoneCards := [launchCard, badMilestoneCard, seedCard] }

/-- A record with non-ASCII and escape-needing characters in several
fields, for the round-trip witness. -/
def unicodeRec : CompanyData :=
  { company_name := "Müller & Söhne", tagline := "vite — très vite",
    website := "https://例え.jp", location := "São Paulo",
    description := "line one\nline \"two\"", tags := ["ai", "ai"],
    team := [{ name := "José", role := "CEO\\CTO" }],
    problem_statement := "café ☕", milestones :=
      [{ date := "Jan 2024", title := "Läunch", description := "" }],
    founded_date := "2019", last_updated := "Août 2025" }

/-!
## Theorems
-/

/-- `List.dedup` is a valid reading of `list(set(...))`. -/
theorem setToList_dedupST : SetToList dedupST :=
  fun xs => ⟨List.nodup_dedup xs, fun _ => List.mem_dedup⟩

/-- The reversal of `List.dedup` is an equally valid reading of
`list(set(...))`. -/
theorem setToList_revDedupST : SetToList revDedupST :=
  fun xs =>
    ⟨by simpa [revDedupST] using List.nodup_dedup xs,
     fun a => by simp [revDedupST, List.mem_dedup]⟩

/-- Any valid `list(set(...))` sends the empty list to the empty list. -/
theorem setToList_nil {f : List String → List String} (hf : SetToList f) : f [] = [] := by
  refine List.eq_nil_iff_forall_not_mem.mpr (fun a ha => ?_)
  have := ((hf []).2 a).mp ha
  simp at this

/-- Pages whose link scan is non-empty are consumed one by one, each
appending its links to the accumulator. -/
theorem discoverLoop_goodPages (pre : List (List Anchor))
    (hpre : ∀ p ∈ pre, pageLinks p ≠ []) (rest : List (FetchResult (List Anchor))) :
    ∀ acc, discoverLoop (pre.map FetchResult.ok ++ rest) acc =
      discoverLoop rest (acc ++ (pre.map pageLinks).flatten) := by
  induction pre with
  | nil => intro acc; simp
  | cons p pre ih =>
    intro acc
    have hp : pageLinks p ≠ [] := hpre p (List.mem_cons_self p pre)
    have ih2 := ih (fun q hq => hpre q (List.mem_cons_of_mem p hq)) (acc ++ pageLinks p)
    simp only [List.map_cons, List.cons_append, discoverLoop, if_neg hp,
      List.flatten_cons]
    rw [← List.append_assoc]
    exact ih2

/-- Claim C1, counterexample.  Pages 1 and 2 of `pagesC1` both carry
exactly the link `/companies/a`, so page 2 yields zero links that are
not already in the accumulated set; the claim then demands termination
at page 2 (two fetches).  The loop instead tests only whether the page
yields zero links at all, so it also fetches page 3: three fetches
happen.  (The returned set is still duplicate-free.) -/
theorem claim1_counterexample :
    pageLinks [anchorA] = ["/companies/a"] ∧
    pagesFetched pagesC1 = 3 ∧
    get_company_links pagesC1 dedupST = Except.ok ["/companies/a"] := by
  refine ⟨by decide, by decide, rfl⟩

/-- Claim C1, amended: discovery terminates on the first page that
yields zero links matching the structural pattern (not zero previously
unseen links), and the returned link list contains no duplicates even
when the same link recurs across pages. -/
theorem claim1_theorem (pre : List (List Anchor)) (pe : List Anchor)
    (rest : List (FetchResult (List Anchor))) (f : List String → List String)
    (hf : SetToList f) (hpre : ∀ p ∈ pre, pageLinks p ≠ []) (hpe : pageLinks pe = []) :
    get_company_links (pre.map FetchResult.ok ++ FetchResult.ok pe :: rest) f =
      Except.ok (f ((pre.map pageLinks).flatten)) ∧
    (f ((pre.map pageLinks).flatten)).Nodup := by
  refine ⟨?_, (hf _).1⟩
  unfold get_company_links
  rw [discoverLoop_goodPages pre hpre _ []]
  simp [discoverLoop, hpe, Except.map]

/-- Claim C1 witness: two pages with one repeated link, then an empty
page; the accumulated links dedup to the single path. -/
theorem claim1_witness :
    get_company_links [FetchResult.ok [anchorA, anchorA], FetchResult.ok []] dedupST =
      Except.ok ["/companies/a"] ∧
    (["/companies/a"] : List String).Nodup := by
  have h := claim1_theorem [[anchorA, anchorA]] [] [] dedupST setToList_dedupST
    (by decide) (by decide)
  exact h

/-- Claim C2, counterexample.  A detail page whose `h1.text-3xl` exists
but contains only whitespace has an absent-after-strip company name; the
claim says such a page yields `None`, but extraction returns a record
whose `company_name` is the empty string. -/
theorem claim2_counterexample :
    (extractRecord docBlankName).isSome = true ∧
    (extractRecord docBlankName).map CompanyData.company_name = some "" := by
  refine ⟨by decide, by decide⟩

/-- Claim C2, amended: a record is produced if and only if the primary
heading element is present; emptiness of its text is not checked, and a
missing heading is the only record-level failure mode of extraction. -/
theorem claim2_theorem (doc : DetailDoc) :
    (extractRecord doc).isSome = true ↔ doc.nameElem.isSome = true := by
  cases h : doc.nameElem <;> simp [extractRecord, h]

/-- Claim C3, counterexample.  Discovery accumulates
`/companies/a, /companies/b` in that order, but `list(set(...))` may
equally return the reversed order (string hashing is seed-randomized;
`revDedupST` satisfies the same `SetToList` contract as `dedupST`), and
then the orchestrator iterates - and the output records follow - the
reversed order, not discovery order. -/
theorem claim3_counterexample :
    discoverLoop pagesC3 [] = Except.ok ["/companies/a", "/companies/b"] ∧
    get_company_links pagesC3 revDedupST = Except.ok ["/companies/b", "/companies/a"] ∧
    (runOrchestrator ["/companies/b", "/companies/a"] fetchByName).map
        CompanyData.company_name = ["/companies/b", "/companies/a"] ∧
    ((["/companies/b", "/companies/a"] : List String) ==
      ["/companies/a", "/companies/b"]) = false := by
  refine ⟨rfl, rfl, by decide, by decide⟩

/-- Claim C3, amended: the output record sequence follows the iteration
order of whatever link list discovery returned (the detail loop is an
order-preserving `filterMap`), but that list is only guaranteed to be
some permutation of the deduplicated discovery-order accumulation - the
`list(set(...))` step does not preserve discovery order. -/
theorem claim3_theorem (l₁ l₂ : List String) (fetch : String → FetchResult DetailDoc)
    (f : List String → List String) (hf : SetToList f) (xs : List String) :
    runOrchestrator (l₁ ++ l₂) fetch =
      runOrchestrator l₁ fetch ++ runOrchestrator l₂ fetch ∧
    (f xs).Perm xs.dedup := by
  constructor
  · exact List.filterMap_append l₁ l₂ _
  · exact (List.perm_ext_iff_of_nodup (hf xs).1 (List.nodup_dedup xs)).mpr
      (fun a => by rw [(hf xs).2 a, List.mem_dedup])

/-- Claim C3 witness at concrete links and a concrete duplicate list. -/
theorem claim3_witness :
    runOrchestrator (["/companies/a"] ++ ["/companies/b"]) fetchByName =
      runOrchestrator ["/companies/a"] fetchByName ++
        runOrchestrator ["/companies/b"] fetchByName ∧
    (dedupST ["x", "x"]).Perm (["x", "x"] : List String).dedup :=
  claim3_theorem ["/companies/a"] ["/companies/b"] fetchByName dedupST
    setToList_dedupST ["x", "x"]

/-- Claim C4, counterexample.  A transport failure while fetching
listing page 2 does not yield a soft stop with the links gathered so
far: `get_company_links` has no `try`, so the exception escapes and the
whole run aborts (modelled as `Except.error`), losing the
`/companies/a` gathered on page 1. -/
theorem claim4_counterexample :
    pageLinks [anchorA] = ["/companies/a"] ∧
    get_company_links pagesC4 dedupST = Except.error () := by
  refine ⟨by decide, rfl⟩

/-- Claim C4, amended: a non-200 status on a listing page makes
discovery stop and return the links gathered so far; a non-200 status on
the very first listing page gives zero links and an empty (still valid)
output; and detail-page failures - non-200 status or a transport
exception, the latter caught by the `try` around `scrape_company_data` -
only skip that link.  Transport exceptions during listing fetches are
the uncovered case (see the counterexample). -/
theorem claim4_theorem (pre : List (List Anchor)) (rest : List (FetchResult (List Anchor)))
    (f : List String → List String) (hf : SetToList f)
    (hpre : ∀ p ∈ pre, pageLinks p ≠ []) (fetch : String → FetchResult DetailDoc) :
    get_company_links (pre.map FetchResult.ok ++ FetchResult.badStatus :: rest) f =
      Except.ok (f ((pre.map pageLinks).flatten)) ∧
    get_company_links (FetchResult.badStatus :: rest) f = Except.ok [] ∧
    runOrchestrator [] fetch = [] ∧
    scrape_company_data (FetchResult.netError : FetchResult DetailDoc) = none ∧
    scrape_company_data (FetchResult.badStatus : FetchResult DetailDoc) = none := by
  refine ⟨?_, ?_, rfl, rfl, rfl⟩
  · unfold get_company_links
    rw [discoverLoop_goodPages pre hpre _ []]
    simp [discoverLoop, Except.map]
  · unfold get_company_links
    simp [discoverLoop, Except.map, setToList_nil hf]

/-- Claim C4 witness: one good page then a non-200 listing status, and
the first-page-failure case. -/
theorem claim4_witness :
    get_company_links [FetchResult.ok [anchorA], FetchResult.badStatus] dedupST =
      Except.ok ["/companies/a"] ∧
    get_company_links [(FetchResult.badStatus : FetchResult (List Anchor))] dedupST =
      Except.ok [] ∧
    runOrchestrator [] fetchByName = [] ∧
    scrape_company_data (FetchResult.netError : FetchResult DetailDoc) = none ∧
    scrape_company_data (FetchResult.badStatus : FetchResult DetailDoc) = none := by
  have h := claim4_theorem [[anchorA]] [] dedupST setToList_dedupST (by decide) fetchByName
  exact h

/-- Counting in the stripped tag list equals counting matching raw tag
elements: duplicates survive with their exact multiplicities. -/
theorem count_strip_filter (l : List String) (x : String) :
    ((l.filter (fun t => !(t == ""))).map pyStrip).count x =
      (l.filter (fun t => !(t == "") && (pyStrip t == x))).length := by
  induction l with
  | nil => simp
  | cons a l ih =>
    by_cases ha : a = ""
    · subst ha
      simpa using ih
    · have hne : (a == "") = false := by simp [ha]
      by_cases hx : pyStrip a = x
      · simp [List.filter_cons, hne, hx, List.count_cons, ih]
      · simp [List.filter_cons, hne, hx, List.count_cons, ih]

/-- Narrative blocks in which no problem-statement headline precedes
leave the fold's accumulator unchanged. -/
theorem foldl_ps_skip (post : List TextSection)
    (hpost : ∀ u ∈ post, isProblemSection u = false) :
    ∀ init : String,
      post.foldl (fun acc ts => if isProblemSection ts then ts.stripped else acc) init =
        init := by
  induction post with
  | nil => intro init; rfl
  | cons u post ih =>
    intro init
    have hu : isProblemSection u = false := hpost u (List.mem_cons_self u post)
    simp only [List.foldl_cons, hu, Bool.false_eq_true, if_false]
    exact ih (fun v hv => hpost v (List.mem_cons_of_mem u hv)) init

/-- The fold keeps the last matching narrative block in document
order. -/
theorem foldl_ps_last (pre : List TextSection) (s : TextSection)
    (post : List TextSection) (hs : isProblemSection s = true)
    (hpost : ∀ u ∈ post, isProblemSection u = false) (init : String) :
    (pre ++ s :: post).foldl
        (fun acc ts => if isProblemSection ts then ts.stripped else acc) init =
      s.stripped := by
  rw [List.foldl_append, List.foldl_cons]
  simp only [hs, if_true]
  exact foldl_ps_skip post hpost _

/-- Claim C5: an individually malformed team or milestone card
contributes nothing while both parts of its surroundings are extracted
unchanged (the per-card `try`/skip makes extraction a `filterMap`), and
a detail page with its heading always yields a record, whatever the
cards look like. -/
theorem claim5_theorem (doc : DetailDoc) (nm : String) (hn : doc.nameElem = some nm)
    (r : CompanyData) (hr : extractRecord doc = some r)
    (cards : List MemberCard) (hg : doc.teamGrid = some cards)
    (pre post : List MemberCard) (bad : MemberCard) (hbad : extractMember bad = none)
    (mpre mpost : List MilestoneCard) (mbad : MilestoneCard)
    (hmbad : extractMilestone mbad = none) :
    (extractRecord doc).isSome = true ∧
    r.team = cards.filterMap extractMember ∧
    r.milestones = doc.milestoneCards.filterMap extractMilestone ∧
    (pre ++ bad :: post).filterMap extractMember =
      pre.filterMap extractMember ++ post.filterMap extractMember ∧
    (mpre ++ mbad :: mpost).filterMap extractMilestone =
      mpre.filterMap extractMilestone ++ mpost.filterMap extractMilestone := by
  simp only [extractRecord, hn] at hr
  have hr' := Option.some.inj hr
  subst hr'
  refine ⟨by simp [extractRecord, hn], by simp [hg], rfl, ?_, ?_⟩
  · simp [List.filterMap_append, List.filterMap_cons, hbad]
  · simp [List.filterMap_append, List.filterMap_cons, hmbad]

/-- Claim C5 witness: on `richDoc`, the malformed middle team card and
the malformed middle milestone card are skipped while Ada, Bob, Launch
and Seed survive. -/
theorem claim5_witness :
    (extractRecord richDoc).isSome = true ∧
    ([{ name := "Ada", role := "CEO" }, { name := "Bob", role := "CTO" }] :
        List TeamMember) =
      [adaCard, badCard, bobCard].filterMap extractMember ∧
    ([{ date := "Feb 2024", title := "Launch", description := "" },
      { date := "Mar 2024", title := "Seed", description := "Raised." }] :
        List Milestone) =
      richDoc.milestoneCards.filterMap extractMilestone ∧
    ([adaCard] ++ badCard :: [bobCard]).filterMap extractMember =
      [adaCard].filterMap extractMember ++ [bobCard].filterMap extractMember ∧
    ([launchCard] ++ badMilestoneCard :: [seedCard]).filterMap extractMilestone =
      [launchCard].filterMap extractMilestone ++
        [seedCard].filterMap extractMilestone := by
  have h := claim5_theorem richDoc " Acme Co. " rfl
    { company_name := "Acme Co.", tagline := "Ship faster",
      website := "https://acme.example", location := "Berlin",
      description := "First block.", tags := ["ai", "saas", "ai"],
      team := [{ name := "Ada", role := "CEO" }, { name := "Bob", role := "CTO" }],
      problem_statement := "New problem.",
      milestones := [{ date := "Feb 2024", title := "Launch", description := "" },
        { date := "Mar 2024", title := "Seed", description := "Raised." }],
      founded_date := "2019", last_updated := "Jan 2025" }
    (by decide) [adaCard, badCard, bobCard] rfl
    [adaCard] [bobCard] badCard (by decide)
    [launchCard] [seedCard] badMilestoneCard (by decide)
  exact h

/-- Claim C6: the stripped tag list is a sublist of the stripped raw
chip texts (document order, no sorting), every chip with non-empty text
contributes, multiplicities are preserved exactly (no dedup), and team
and milestone extraction distribute over concatenation (document order,
no sorting or dedup across card groups). -/
theorem claim6_theorem (doc : DetailDoc) (nm : String) (hn : doc.nameElem = some nm)
    (r : CompanyData) (hr : extractRecord doc = some r) (x : String)
    (c₁ c₂ : List MemberCard) (m₁ m₂ : List MilestoneCard) :
    List.Sublist r.tags (doc.tagElements.map pyStrip) ∧
    (∀ t ∈ doc.tagElements, t ≠ "" → pyStrip t ∈ r.tags) ∧
    r.tags.count x =
      (doc.tagElements.filter (fun t => !(t == "") && (pyStrip t == x))).length ∧
    (c₁ ++ c₂).filterMap extractMember =
      c₁.filterMap extractMember ++ c₂.filterMap extractMember ∧
    (m₁ ++ m₂).filterMap extractMilestone =
      m₁.filterMap extractMilestone ++ m₂.filterMap extractMilestone := by
  simp only [extractRecord, hn] at hr
  have hr' := Option.some.inj hr
  subst hr'
  refine ⟨?_, ?_, ?_, List.filterMap_append c₁ c₂ _, List.filterMap_append m₁ m₂ _⟩
  · exact (List.filter_sublist doc.tagElements).map pyStrip
  · intro t ht hne
    exact List.mem_map_of_mem pyStrip (List.mem_filter_of_mem ht (by simp [hne]))
  · exact count_strip_filter doc.tagElements x

/-- Claim C6 witness on `richDoc` with the duplicated tag `ai`. -/
theorem claim6_witness :
    List.Sublist (["ai", "saas", "ai"] : List String)
      (richDoc.tagElements.map pyStrip) ∧
    (∀ t ∈ richDoc.tagElements, t ≠ "" → pyStrip t ∈ (["ai", "saas", "ai"] : List String)) ∧
    (["ai", "saas", "ai"] : List String).count "ai" =
      (richDoc.tagElements.filter
        (fun t => !(t == "") && (pyStrip t == "ai"))).length ∧
    ([adaCard] ++ [bobCard]).filterMap extractMember =
      [adaCard].filterMap extractMember ++ [bobCard].filterMap extractMember ∧
    ([launchCard] ++ [seedCard]).filterMap extractMilestone =
      [launchCard].filterMap extractMilestone ++
        [seedCard].filterMap extractMilestone := by
  have h := claim6_theorem richDoc " Acme Co. " rfl
    { company_name := "Acme Co.", tagline := "Ship faster",
      website := "https://acme.example", location := "Berlin",
      description := "First block.", tags := ["ai", "saas", "ai"],
      team := [{ name := "Ada", role := "CEO" }, { name := "Bob", role := "CTO" }],
      problem_statement := "New problem.",
      milestones := [{ date := "Feb 2024", title := "Launch", description := "" },
        { date := "Mar 2024", title := "Seed", description := "Raised." }],
      founded_date := "2019", last_updated := "Jan 2025" }
    (by decide) "ai" [adaCard] [bobCard] [launchCard] [seedCard]
  exact h

/-- Claim C7: a milestone card produces an entry iff both its date
marker and its title are present, and a produced entry's description is
the empty string when the card has no description element. -/
theorem claim7_theorem (m m' : MilestoneCard) (e : Milestone)
    (hd : m.descrDiv = none) (he : extractMilestone m = some e) :
    e.description = "" ∧
    ((extractMilestone m').isSome = true ↔
      (m'.dateDiv.isSome = true ∧ m'.titleElem.isSome = true)) := by
  constructor
  · obtain ⟨dd, tt, dsc⟩ := m
    simp only at hd
    subst hd
    cases dd <;> cases tt <;> simp [extractMilestone] at he
    subst he
    rfl
  · obtain ⟨dd, tt, dsc⟩ := m'
    cases dd <;> cases tt <;> simp [extractMilestone]

/-- Claim C7 witness: `launchCard` has a date and a title but no
description element; its entry's description is empty. -/
theorem claim7_witness :
    ({ date := "Feb 2024", title := "Launch", description := "" } :
        Milestone).description = "" ∧
    ((extractMilestone launchCard).isSome = true ↔
      (launchCard.dateDiv.isSome = true ∧ launchCard.titleElem.isSome = true)) := by
  have h := claim7_theorem launchCard launchCard
    { date := "Feb 2024", title := "Launch", description := "" } rfl (by decide)
  exact h

/-- Claim C8: the record's description is the first narrative block's
text, and the problem statement is the stripped text of the last
narrative block (in document order) whose nearest preceding
section headline contains `Problem statement`. -/
theorem claim8_theorem (doc : DetailDoc) (nm : String) (hn : doc.nameElem = some nm)
    (r : CompanyData) (hr : extractRecord doc = some r)
    (t : TextSection) (ts : List TextSection) (hts : doc.textSections = t :: ts)
    (pre post : List TextSection) (s : TextSection)
    (hsplit : doc.textSections = pre ++ s :: post)
    (hs : isProblemSection s = true)
    (hpost : ∀ u ∈ post, isProblemSection u = false) :
    r.description = t.stripped ∧ r.problem_statement = s.stripped := by
  simp only [extractRecord, hn] at hr
  have hr' := Option.some.inj hr
  subst hr'
  constructor
  · simp [textFields, hts]
  · have hne : doc.textSections ≠ [] := by rw [hts]; simp
    simp only [textFields]
    rw [hts]
    simp only []
    rw [← hts, hsplit]
    exact foldl_ps_last pre s post hs hpost ""

/-- Claim C8 witness on `richDoc`: the first block is the description,
and of the two problem-statement blocks the later one wins. -/
theorem claim8_witness :
    ("First block." : String) = ("First block." : String) ∧
    ("New problem." : String) = ("New problem." : String) := by
  have h := claim8_theorem richDoc " Acme Co. " rfl
    { company_name := "Acme Co.", tagline := "Ship faster",
      website := "https://acme.example", location := "Berlin",
      description := "First block.", tags := ["ai", "saas", "ai"],
      team := [{ name := "Ada", role := "CEO" }, { name := "Bob", role := "CTO" }],
      problem_statement := "New problem.",
      milestones := [{ date := "Feb 2024", title := "Launch", description := "" },
        { date := "Mar 2024", title := "Seed", description := "Raised." }],
      founded_date := "2019", last_updated := "Jan 2025" }
    (by decide)
    { stripped := "First block.", prevHeadline := none }
    [{ stripped := "Old problem.", prevHeadline := some "Problem statement" },
     { stripped := "New problem.", prevHeadline := some "The Problem statement" },
     { stripped := "Unrelated.", prevHeadline := some "Team" }] rfl
    [{ stripped := "First block.", prevHeadline := none },
     { stripped := "Old problem.", prevHeadline := some "Problem statement" }]
    [{ stripped := "Unrelated.", prevHeadline := some "Team" }]
    { stripped := "New problem.", prevHeadline := some "The Problem statement" }
    rfl (by decide) (by decide)
  exact h

/-- Claim C10: a heading-bearing page yields the record with exactly the
eleven initialized fields (the type `CompanyData`), the company name
being the stripped heading text, and each field whose source section is
absent keeping its line 47-59 default. -/
theorem claim10_theorem (doc : DetailDoc) (nm : String) (hn : doc.nameElem = some nm)
    (r : CompanyData) (hr : extractRecord doc = some r) :
    r.company_name = pyStrip nm ∧
    (doc.taglineElem = none → r.tagline = "") ∧
    (doc.socialSection = none →
      r.website = "" ∧ r.location = "" ∧ r.founded_date = "" ∧ r.last_updated = "") ∧
    (doc.textSections = [] → r.description = "" ∧ r.problem_statement = "") ∧
    (doc.tagElements = [] → r.tags = []) ∧
    (doc.teamGrid = none → r.team = []) ∧
    (doc.milestoneCards = [] → r.milestones = []) := by
  simp only [extractRecord, hn] at hr
  have hr' := Option.some.inj hr
  subst hr'
  refine ⟨rfl, ?_, ?_, ?_, ?_, ?_, ?_⟩
  · intro h; simp [h]
  · intro h; simp [h]
  · intro h; simp [h, textFields]
  · intro h; simp [h]
  · intro h; simp [h]
  · intro h; simp [h]

/-- Claim C10 witness: a page with only a (whitespace) heading produces
the all-defaults record. -/
theorem claim10_witness :
    ("" : String) = pyStrip " " ∧
    (docBlankName.taglineElem = none → ("" : String) = "") ∧
    (docBlankName.socialSection = none →
      ("" : String) = "" ∧ ("" : String) = "" ∧ ("" : String) = "" ∧ ("" : String) = "") ∧
    (docBlankName.textSections = [] → ("" : String) = "" ∧ ("" : String) = "") ∧
    (docBlankName.tagElements = [] → ([] : List String) = []) ∧
    (docBlankName.teamGrid = none → ([] : List TeamMember) = []) ∧
    (docBlankName.milestoneCards = [] → ([] : List Milestone) = []) := by
  have h := claim10_theorem docBlankName " " rfl
    { company_name := "", tagline := "", website := "", location := "",
      description := "", tags := [], team := [], problem_statement := "",
      milestones := [], founded_date := "", last_updated := "" }
    (by decide)
  exact h

/-- Skipping whitespace passes over a whitespace head. -/
theorem skipWs_cons_ws (c : Char) (h : isWsChar c = true) (cs : List Char) :
    skipWs (c :: cs) = skipWs cs := by
  simp [skipWs, h]

/-- Skipping whitespace stops at a non-whitespace head. -/
theorem skipWs_cons_nws (c : Char) (h : isWsChar c = false) (cs : List Char) :
    skipWs (c :: cs) = c :: cs := by
  simp [skipWs, h]

/-- Skipping whitespace drops a whitespace-only prefix. -/
theorem skipWs_append_ws (ws : List Char) (h : ∀ c ∈ ws, isWsChar c = true)
    (cs : List Char) : skipWs (ws ++ cs) = skipWs cs := by
  induction ws with
  | nil => rfl
  | cons c ws ih =>
    rw [List.cons_append, skipWs_cons_ws c (h c (List.mem_cons_self c ws))]
    exact ih (fun x hx => h x (List.mem_cons_of_mem c hx))

/-- Skipping whitespace is idempotent. -/
theorem skipWs_idem (cs : List Char) : skipWs (skipWs cs) = skipWs cs := by
  induction cs with
  | nil => rfl
  | cons c cs ih =>
    by_cases hc : isWsChar c = true
    · rw [skipWs_cons_ws c hc, ih]
    · rw [skipWs_cons_nws c (by simpa using hc), skipWs_cons_nws c (by simpa using hc)]

/-- The indentation prefix is whitespace-only. -/
theorem indentL_ws (d : Nat) : ∀ c ∈ indentL d, isWsChar c = true := by
  intro c hc
  rw [indentL, List.mem_replicate] at hc
  rw [hc.2]
  decide

/-- The value parser already skips whitespace, so pre-skipping changes
nothing. -/
theorem parseValF_skipWs (fuel : Nat) (cs : List Char) :
    parseValF fuel (skipWs cs) = parseValF fuel cs := by
  cases fuel with
  | zero => rfl
  | succ fuel => simp only [parseValF, skipWs_idem]

/-- The value parser ignores a whitespace-only prefix. -/
theorem parseValF_ws (fuel : Nat) (ws : List Char)
    (h : ∀ c ∈ ws, isWsChar c = true) (cs : List Char) :
    parseValF fuel (ws ++ cs) = parseValF fuel cs := by
  cases fuel with
  | zero => rfl
  | succ fuel => simp only [parseValF, skipWs_append_ws ws h]

/-- The hexadecimal digit encoder and decoder are inverse below 16. -/
theorem hexVal_toHexChar (n : Nat) (h : n < 16) : hexVal (toHexChar n) = some n := by
  interval_cases n <;> decide

/-- The `\u00xx` escape body decodes back to the control character's
code point. -/
theorem hexQuad_esc (n : Nat) (h : n < 32) :
    hexQuad '0' '0' (toHexChar (n / 16)) (toHexChar (n % 16)) = some n := by
  have h1 : n / 16 < 16 := by omega
  have h2 : n % 16 < 16 := Nat.mod_lt _ (by omega)
  rw [hexQuad, hexVal_toHexChar _ h1, hexVal_toHexChar _ h2,
    show hexVal '0' = some 0 from by decide]
  simp only []
  congr 1
  omega

/-- Escaping never touches a non-ASCII character: it stays literal. -/
theorem escChar_nonascii (c : Char) (h : 128 ≤ c.toNat) : escChar c = [c] := by
  have h1 : c ≠ '"' := fun e => absurd h (by subst e; decide)
  have h2 : c ≠ '\\' := fun e => absurd h (by subst e; decide)
  have h3 : c ≠ '\n' := fun e => absurd h (by subst e; decide)
  have h4 : c ≠ '\t' := fun e => absurd h (by subst e; decide)
  have h5 : c ≠ '\r' := fun e => absurd h (by subst e; decide)
  have h6 : c ≠ Char.ofNat 8 := fun e => absurd h (by subst e; decide)
  have h7 : c ≠ Char.ofNat 12 := fun e => absurd h (by subst e; decide)
  have h8 : ¬ c.toNat < 32 := by omega
  simp [escChar, h1, h2, h3, h4, h5, h6, h7, h8]

/-- Undoing one escaped character: the string-content parser consumes
`escChar c` and pushes exactly `c`. -/
theorem parseStrAux_escChar (c : Char) (acc l : List Char) :
    parseStrAux acc (escChar c ++ l) = parseStrAux (c :: acc) l := by
  by_cases h1 : c = '"'
  · subst h1; rfl
  by_cases h2 : c = '\\'
  · subst h2; rfl
  by_cases h3 : c = '\n'
  · subst h3; rfl
  by_cases h4 : c = '\t'
  · subst h4; rfl
  by_cases h5 : c = '\r'
  · subst h5; rfl
  by_cases h6 : c = Char.ofNat 8
  · subst h6; rfl
  by_cases h7 : c = Char.ofNat 12
  · subst h7; rfl
  by_cases h8 : c.toNat < 32
  · rw [show escChar c =
        ['\\', 'u', '0', '0', toHexChar (c.toNat / 16), toHexChar (c.toNat % 16)]
      from by simp [escChar, h1, h2, h3, h4, h5, h6, h7, h8]]
    show parseStrAux acc
        ('\\' :: 'u' :: '0' :: '0' :: toHexChar (c.toNat / 16) ::
          toHexChar (c.toNat % 16) :: l) = parseStrAux (c :: acc) l
    rw [parseStrAux, hexQuad_esc c.toNat h8]
    simp only [Char.ofNat_toNat]
  · rw [show escChar c = [c] from by simp [escChar, h1, h2, h3, h4, h5, h6, h7, h8]]
    show parseStrAux acc (c :: l) = parseStrAux (c :: acc) l
    rw [parseStrAux.eq_def]
    split
    · rename_i heq; injection heq with hc _; exact absurd hc h1
    · rename_i heq; injection heq with hc _; exact absurd hc h2
    · rename_i heq; injection heq with hc _; exact absurd hc h2
    · rename_i c' rest heq; injection heq with hc hrest; rw [hc, hrest]
    · rename_i heq; cases heq

/-- The string-content parser undoes the whole escaped content and stops
at the closing quote. -/
theorem parseStrAux_escape (cs : List Char) :
    ∀ acc l, parseStrAux acc ((cs.map escChar).flatten ++ '"' :: l) =
      some (String.mk (acc.reverse ++ cs), l) := by
  induction cs with
  | nil => intro acc l; simp [parseStrAux]
  | cons c cs ih =>
    intro acc l
    simp only [List.map_cons, List.flatten_cons, List.append_assoc]
    rw [parseStrAux_escChar, ih (c :: acc) l]
    simp

/-- A rendered string literal parses back to the original string. -/
theorem parseStr_render (s : String) (l : List Char) :
    parseStrAux [] (escapeL s ++ '"' :: l) = some (s, l) := by
  have h := parseStrAux_escape s.data [] l
  simpa [escapeL] using h

/-- Every rendered value starts with a non-whitespace character that is
none of the tokens the parser treats as a delimiter. -/
theorem renderJL_head (d : Nat) (v : JVal) :
    ∃ c t, renderJL d v = c :: t ∧ isWsChar c = false ∧ c ≠ ']' ∧ c ≠ '\x7d' ∧ c ≠ ',' := by
  cases v with
  | jstr s => exact ⟨'"', _, rfl, by decide, by decide, by decide, by decide⟩
  | jarr es =>
    cases es with
    | nil => exact ⟨'[', _, rfl, by decide, by decide, by decide, by decide⟩
    | cons e es => exact ⟨'[', _, rfl, by decide, by decide, by decide, by decide⟩
  | jobj fs =>
    cases fs with
    | nil => exact ⟨'\x7b', _, rfl, by decide, by decide, by decide, by decide⟩
    | cons f fs =>
      obtain ⟨k, v⟩ := f
      exact ⟨'\x7b', _, rfl, by decide, by decide, by decide, by decide⟩

/-- Every value costs at least one unit of parser fuel. -/
theorem wVal_pos (v : JVal) : 1 ≤ wVal v := by
  cases v <;> simp [wVal]

/-- The value parser ignores one leading whitespace character. -/
theorem parseValF_cons_ws (fuel : Nat) (c : Char) (h : isWsChar c = true)
    (cs : List Char) : parseValF fuel (c :: cs) = parseValF fuel cs := by
  have := parseValF_ws fuel [c] (by intro x hx; simp at hx; rw [hx]; exact h) cs
  simpa using this

/-- Parsing inverts rendering, jointly for values, array tails and
object tails: with enough fuel, the parser consumes exactly the
rendered text (whatever whitespace surrounds it) and returns the
original value. -/
theorem parse_render_mut : ∀ fuel : Nat,
    (∀ v d rest, wVal v ≤ fuel →
      parseValF fuel (renderJL d v ++ rest) = some (v, rest)) ∧
    (∀ lws e es d ws rest, (∀ c ∈ lws, isWsChar c = true) →
      (∀ c ∈ ws, isWsChar c = true) → wElems (e :: es) ≤ fuel →
      parseElemsF fuel
          (lws ++ (renderJL d e ++
            (renderMoreElemsL d es ++ '\n' :: (ws ++ ']' :: rest)))) =
        some (e :: es, rest)) ∧
    (∀ lws k v fs d ws rest, (∀ c ∈ lws, isWsChar c = true) →
      (∀ c ∈ ws, isWsChar c = true) → wFields ((k, v) :: fs) ≤ fuel →
      parseFieldsF fuel
          (lws ++ (renderStrL k ++ ':' :: ' ' ::
            (renderJL d v ++
              (renderMoreFieldsL d fs ++ '\n' :: (ws ++ '\x7d' :: rest))))) =
        some ((k, v) :: fs, rest)) := by
  intro fuel
  induction fuel with
  | zero =>
    refine ⟨?_, ?_, ?_⟩
    · intro v d rest hw
      have := wVal_pos v
      omega
    · intro lws e es d ws rest _ _ hw
      rw [wElems] at hw
      omega
    · intro lws k v fs d ws rest _ _ hw
      rw [wFields] at hw
      omega
  | succ fuel ih =>
    obtain ⟨ihP, ihQ, ihR⟩ := ih
    refine ⟨?_, ?_, ?_⟩
    · -- values
      intro v d rest hw
      cases v with
      | jstr s =>
        rw [show renderJL d (JVal.jstr s) ++ rest =
            '"' :: (escapeL s ++ '"' :: rest) from by simp [renderJL, renderStrL]]
        rw [parseValF]
        simp only [skipWs_cons_nws '"' (by decide), parseStr_render]
      | jarr es =>
        cases es with
        | nil =>
          rw [show renderJL d (JVal.jarr []) ++ rest = '[' :: ']' :: rest from rfl]
          rw [parseValF]
          simp only [skipWs_cons_nws '[' (by decide), skipWs_cons_nws ']' (by decide)]
          simp
        | cons e es =>
          rw [show renderJL d (JVal.jarr (e :: es)) ++ rest =
              '[' :: '\n' :: (indentL (d + 1) ++ (renderJL (d + 1) e ++
                (renderMoreElemsL (d + 1) es ++
                  '\n' :: (indentL d ++ ']' :: rest)))) from by simp [renderJL]]
          rw [parseValF]
          obtain ⟨c, t, hct, hnws, hnr, hnb, hnc⟩ := renderJL_head (d + 1) e
          have hq := ihQ [] e es (d + 1) (indentL d) rest
            (by intro x hx; cases hx) (indentL_ws d)
            (by rw [wVal] at hw; omega)
          rw [List.nil_append] at hq
          simp only [skipWs_cons_nws '[' (by decide), skipWs_cons_ws '\n' (by decide),
            skipWs_append_ws _ (indentL_ws (d + 1)), hct, List.cons_append,
            skipWs_cons_nws c hnws, if_neg hnr]
          rw [← List.cons_append, ← hct, hq]
      | jobj fs =>
        cases fs with
        | nil =>
          rw [show renderJL d (JVal.jobj []) ++ rest = '\x7b' :: '\x7d' :: rest from rfl]
          rw [parseValF]
          simp only [skipWs_cons_nws '\x7b' (by decide), skipWs_cons_nws '\x7d' (by decide)]
          simp
        | cons f fs =>
          obtain ⟨k, v⟩ := f
          rw [show renderJL d (JVal.jobj ((k, v) :: fs)) ++ rest =
              '\x7b' :: '\n' :: (indentL (d + 1) ++ (renderStrL k ++ ':' :: ' ' ::
                (renderJL (d + 1) v ++ (renderMoreFieldsL (d + 1) fs ++
                  '\n' :: (indentL d ++ '\x7d' :: rest))))) from by
            simp [renderJL]]
          rw [parseValF]
          have hr := ihR [] k v fs (d + 1) (indentL d) rest
            (by intro x hx; cases hx) (indentL_ws d)
            (by rw [wVal] at hw; omega)
          rw [List.nil_append] at hr
          simp only [skipWs_cons_nws '\x7b' (by decide), skipWs_cons_ws '\n' (by decide),
            skipWs_append_ws _ (indentL_ws (d + 1))]
          rw [show renderStrL k ++ ':' :: ' ' ::
              (renderJL (d + 1) v ++ (renderMoreFieldsL (d + 1) fs ++
                '\n' :: (indentL d ++ '\x7d' :: rest))) =
              '"' :: (escapeL k ++ '"' :: (':' :: ' ' ::
                (renderJL (d + 1) v ++ (renderMoreFieldsL (d + 1) fs ++
                  '\n' :: (indentL d ++ '\x7d' :: rest))))) from by
            simp [renderStrL]]
          simp only [skipWs_cons_nws '"' (by decide),
            if_neg (by decide : ¬ ('"' : Char) = '\x7d')]
          rw [show ('"' : Char) :: (escapeL k ++ '"' :: (':' :: ' ' ::
              (renderJL (d + 1) v ++ (renderMoreFieldsL (d + 1) fs ++
                '\n' :: (indentL d ++ '\x7d' :: rest))))) =
              renderStrL k ++ ':' :: ' ' ::
                (renderJL (d + 1) v ++ (renderMoreFieldsL (d + 1) fs ++
                  '\n' :: (indentL d ++ '\x7d' :: rest))) from by
            simp [renderStrL]]
          rw [hr]
    · -- array tails
      intro lws e es d ws rest hlws hws hw
      rw [parseElemsF, parseValF_ws fuel lws hlws]
      have hp := ihP e d
        (renderMoreElemsL d es ++ '\n' :: (ws ++ ']' :: rest))
        (by rw [wElems] at hw; have := Nat.le_max_left (wVal e) (wElems es); omega)
      rw [hp]
      cases es with
      | nil =>
        simp only [renderMoreElemsL, List.nil_append,
          skipWs_cons_ws '\n' (by decide), skipWs_append_ws ws hws,
          skipWs_cons_nws ']' (by decide)]
        simp
      | cons e2 es2 =>
        rw [show renderMoreElemsL d (e2 :: es2) ++ '\n' :: (ws ++ ']' :: rest) =
            ',' :: ('\n' :: indentL d ++ (renderJL d e2 ++
              (renderMoreElemsL d es2 ++ '\n' :: (ws ++ ']' :: rest)))) from by
          simp [renderMoreElemsL]]
        have hq := ihQ ('\n' :: indentL d) e2 es2 d ws rest
          (by
            intro x hx
            rcases List.mem_cons.mp hx with h | h
            · rw [h]; decide
            · exact indentL_ws d x h)
          hws
          (by rw [wElems] at hw
              have := Nat.le_max_right (wVal e) (wElems (e2 :: es2))
              omega)
        simp only [skipWs_cons_nws ',' (by decide), if_pos rfl]
        rw [hq]
        simp
    · -- object tails
      intro lws k v fs d ws rest hlws hws hw
      rw [parseFieldsF]
      simp only [skipWs_append_ws lws hlws]
      rw [show renderStrL k ++ ':' :: ' ' :: (renderJL d v ++
          (renderMoreFieldsL d fs ++ '\n' :: (ws ++ '\x7d' :: rest))) =
          '"' :: (escapeL k ++ '"' :: (':' :: ' ' :: (renderJL d v ++
            (renderMoreFieldsL d fs ++ '\n' :: (ws ++ '\x7d' :: rest))))) from by
        simp [renderStrL]]
      simp only [skipWs_cons_nws '"' (by decide), parseStr_render,
        skipWs_cons_nws ':' (by decide), if_pos rfl, parseValF_skipWs,
        parseValF_cons_ws fuel ' ' (by decide)]
      have hp := ihP v d (renderMoreFieldsL d fs ++ '\n' :: (ws ++ '\x7d' :: rest))
        (by rw [wFields] at hw; have := Nat.le_max_left (wVal v) (wFields fs); omega)
      rw [hp]
      cases fs with
      | nil =>
        simp only [renderMoreFieldsL, List.nil_append,
          skipWs_cons_ws '\n' (by decide), skipWs_append_ws ws hws,
          skipWs_cons_nws '\x7d' (by decide)]
        simp
      | cons f2 fs2 =>
        obtain ⟨k2, v2⟩ := f2
        rw [show renderMoreFieldsL d ((k2, v2) :: fs2) ++ '\n' :: (ws ++ '\x7d' :: rest) =
            ',' :: ('\n' :: indentL d ++ (renderStrL k2 ++ ':' :: ' ' ::
              (renderJL d v2 ++ (renderMoreFieldsL d fs2 ++
                '\n' :: (ws ++ '\x7d' :: rest))))) from by
          simp [renderMoreFieldsL]]
        have hr := ihR ('\n' :: indentL d) k2 v2 fs2 d ws rest
          (by
            intro x hx
            rcases List.mem_cons.mp hx with h | h
            · rw [h]; decide
            · exact indentL_ws d x h)
          hws
          (by rw [wFields] at hw
              have := Nat.le_max_right (wVal v) (wFields ((k2, v2) :: fs2))
              omega)
        simp only [skipWs_cons_nws ',' (by decide), if_pos rfl]
        rw [hr]
        simp

mutual

/-- A value's fuel need is bounded by its rendered length. -/
theorem wVal_le_len : ∀ (d : Nat) (v : JVal), wVal v ≤ (renderJL d v).length
  | _, JVal.jstr s => by simp [wVal, renderJL, renderStrL]
  | _, JVal.jarr [] => by simp [wVal, wElems, renderJL]
  | d, JVal.jarr (e :: es) => by
    have h := wElems_le_len (d + 1) e es
    simp only [wVal, renderJL, List.length_cons, List.length_append]
    omega
  | _, JVal.jobj [] => by simp [wVal, wFields, renderJL]
  | d, JVal.jobj ((k, v) :: fs) => by
    have h := wFields_le_len (d + 1) k v fs
    simp only [wVal, renderJL, List.length_cons, List.length_append]
    omega
termination_by d v => sizeOf v

/-- An element tail's fuel need is bounded by its rendered length. -/
theorem wElems_le_len : ∀ (d : Nat) (e : JVal) (es : List JVal),
    wElems (e :: es) ≤ 1 + (renderJL d e).length + (renderMoreElemsL d es).length
  | d, e, [] => by
    have h := wVal_le_len d e
    rw [wElems, wElems, Nat.max_zero]
    omega
  | d, e, e2 :: es2 => by
    have h1 := wVal_le_len d e
    have h2 := wElems_le_len d e2 es2
    rw [wElems]
    simp only [renderMoreElemsL, List.length_cons, List.length_append]
    have hm : max (wVal e) (wElems (e2 :: es2)) ≤
        (renderJL d e).length + (2 + ((indentL d).length +
          ((renderJL d e2).length + (renderMoreElemsL d es2).length))) := by
      refine Nat.max_le.mpr ⟨by omega, by omega⟩
    omega
termination_by d e es => sizeOf e + sizeOf es + 1

/-- A member tail's fuel need is bounded by its rendered length. -/
theorem wFields_le_len : ∀ (d : Nat) (k : String) (v : JVal) (fs : List (String × JVal)),
    wFields ((k, v) :: fs) ≤ 1 + (renderJL d v).length + (renderMoreFieldsL d fs).length
  | d, _, v, [] => by
    have h := wVal_le_len d v
    rw [wFields, wFields, Nat.max_zero]
    omega
  | d, _, v, (k2, v2) :: fs2 => by
    have h1 := wVal_le_len d v
    have h2 := wFields_le_len d k2 v2 fs2
    rw [wFields]
    simp only [renderMoreFieldsL, List.length_cons, List.length_append]
    have hm : max (wVal v) (wFields ((k2, v2) :: fs2)) ≤
        (renderJL d v).length + (2 + ((indentL d).length +
          ((renderStrL k2).length + (2 + ((renderJL d v2).length +
            (renderMoreFieldsL d fs2).length))))) := by
      refine Nat.max_le.mpr ⟨by omega, by omega⟩
    omega
termination_by d k v fs => sizeOf v + sizeOf fs + 1

end

/-- The document parser inverts the renderer on any rendered value. -/
theorem parseTop_render (v : JVal) : parseTop (String.mk (renderJL 0 v)) = some v := by
  have hb : wVal v ≤ (renderJL 0 v).length + 1 := by
    have := wVal_le_len 0 v
    omega
  have hp := (parse_render_mut ((renderJL 0 v).length + 1)).1 v 0 [] hb
  rw [List.append_nil] at hp
  rw [parseTop, show (String.mk (renderJL 0 v)).data = renderJL 0 v from rfl, hp]
  simp [skipWs]

/-- Decoding inverts encoding on string arrays. -/
theorem decodeStrings_encode (l : List String) :
    decodeStringsJ (l.map JVal.jstr) = some l := by
  induction l with
  | nil => rfl
  | cons a l ih => simp [decodeStringsJ, ih]

/-- Decoding inverts encoding on one team entry. -/
theorem decodeMember_encode (m : TeamMember) :
    decodeMemberJ (encodeMemberJ m) = some m := rfl

/-- Decoding inverts encoding on team arrays. -/
theorem decodeMembers_encode (l : List TeamMember) :
    decodeMembersJ (l.map encodeMemberJ) = some l := by
  induction l with
  | nil => rfl
  | cons a l ih => simp [decodeMembersJ, decodeMember_encode, ih]

/-- Decoding inverts encoding on one milestone entry. -/
theorem decodeMilestone_encode (m : Milestone) :
    decodeMilestoneJ (encodeMilestoneJ m) = some m := rfl

/-- Decoding inverts encoding on milestone arrays. -/
theorem decodeMilestones_encode (l : List Milestone) :
    decodeMilestonesJ (l.map encodeMilestoneJ) = some l := by
  induction l with
  | nil => rfl
  | cons a l ih => simp [decodeMilestonesJ, decodeMilestone_encode, ih]

set_option maxHeartbeats 1000000 in
/-- Decoding inverts encoding on one company record. -/
theorem decodeCompany_encode (r : CompanyData) :
    decodeCompanyJ (encodeCompanyJ r) = some r := by
  have hstep : decodeCompanyJ (encodeCompanyJ r) =
      match decodeStringsJ (r.tags.map JVal.jstr),
        decodeMembersJ (r.team.map encodeMemberJ),
        decodeMilestonesJ (r.milestones.map encodeMilestoneJ) with
      | some tags, some team, some mss =>
        some
          { company_name := r.company_name, tagline := r.tagline,
            website := r.website, location := r.location,
            description := r.description, tags := tags, team := team,
            problem_statement := r.problem_statement, milestones := mss,
            founded_date := r.founded_date, last_updated := r.last_updated }
      | _, _, _ => none := rfl
  rw [hstep, decodeStrings_encode, decodeMembers_encode, decodeMilestones_encode]

/-- Decoding inverts encoding on record arrays. -/
theorem decodeCompanies_encode (rs : List CompanyData) :
    decodeCompaniesJ (rs.map encodeCompanyJ) = some rs := by
  induction rs with
  | nil => rfl
  | cons r rs ih => simp [decodeCompaniesJ, decodeCompany_encode, ih]

/-- Decoding inverts encoding on the whole artifact. -/
theorem decodeRun_encode (rs : List CompanyData) :
    decodeRun (encodeRun rs) = some rs := by
  simp [encodeRun, decodeRun, decodeCompanies_encode]

/-- Claim C9: the persisted artifact round-trips - parsing the rendered
text back and decoding it reproduces every field of every record
exactly - and every non-ASCII character is written literally, never
escaped. -/
theorem claim9_theorem (rs : List CompanyData) (c : Char) (hc : 128 ≤ c.toNat) :
    reparseRun (renderRun rs) = some rs ∧ escChar c = [c] := by
  refine ⟨?_, escChar_nonascii c hc⟩
  rw [reparseRun, renderRun, parseTop_render (encodeRun rs)]
  exact decodeRun_encode rs

/-- Claim C9 witness: a record full of non-ASCII text, quotes, newlines
and backslashes survives the round trip, and `é` stays literal. -/
theorem claim9_witness :
    reparseRun (renderRun [unicodeRec]) = some [unicodeRec] ∧
    escChar 'é' = ['é'] := by
  have h := claim9_theorem [unicodeRec] 'é' (by decide)
  exact h
